import Mathlib

/-!
Shallow embedding of the rattlesnake stack-to-register bytecode converter
(`Lib/rattlesnake/converter.py`, `instructions.py`, `function.py`, `unary.py`)
together with proofs about its behaviour.

Conventions: Python `int` values are modelled as `Int` where the source can
produce negative values (register numbers, stack levels, line numbers) and as
`Nat` where the source manipulates byte-string offsets and byte values.
Python `dict` objects are modelled as association lists whose lookup
semantics (`get`, `del`, assignment overwrite) match the dict operations the
source performs.
-/

deriving instance DecidableEq for Except

namespace Rattlesnake

/-! ## Instruction serialization (`instructions.py`, `Instruction.__len__` / `__bytes__`) -/

/-- Source `Instruction.__len__`: `2 + 2 * len(self.opargs[1:])`. -/
def encoded_len (opargs : List Nat) : Nat :=
  2 + 2 * opargs.tail.length

/-- Source `Instruction.__bytes__`: build the list `code` by appending
`(EXTENDED_ARG, arg)` for every non-terminal oparg and then
`(opcode, opargs[-1])`, and convert it with `bytes(code)`.
`opargs[-1]` on an empty tuple raises `IndexError`, and `bytes()` raises
`ValueError` when any element is outside `[0, 256)`; both failures are
modelled as `none`. -/
def instrBytes (extOp op : Nat) (opargs : List Nat) : Option (List Nat) :=
  match opargs.getLast? with
  | none => none
  | some lastArg =>
    let code := opargs.dropLast.flatMap (fun a => [extOp, a]) ++ [op, lastArg]
    if code.all (· < 256) then some code else none

/-! ## The stack simulator (`InstructionSetConverter.push` / `pop` / `top`) -/

/-- The converter fields used by the stack simulator: the running
`stacklevel`, `nlocals` and `max_stacklevel = nlocals + stacksize`. -/
structure ConvState where
  stacklevel : Int
  nlocals : Int
  max_stacklevel : Int
deriving DecidableEq, Repr

/-- Source `InstructionSetConverter.push`: increment `stacklevel`, raise
`StackSizeException` when `stacklevel > max_stacklevel`, otherwise return
`stacklevel - 1`.  The `error` branch carries the mutated state, since the
Python attribute update happens before the raise. -/
def push (s : ConvState) : Except ConvState (Int × ConvState) :=
  let s' : ConvState := { s with stacklevel := s.stacklevel + 1 }
  if s'.max_stacklevel < s'.stacklevel then .error s'
  else .ok (s'.stacklevel - 1, s')

/-- Source `InstructionSetConverter.pop`: decrement `stacklevel`, raise
`StackSizeException` when `stacklevel < nlocals`, otherwise return
`stacklevel`. -/
def pop (s : ConvState) : Except ConvState (Int × ConvState) :=
  let s' : ConvState := { s with stacklevel := s.stacklevel - 1 }
  if s'.stacklevel < s'.nlocals then .error s'
  else .ok (s'.stacklevel, s')

/-- Source `InstructionSetConverter.top`: return `stacklevel` unchanged. -/
def top (s : ConvState) : Int := s.stacklevel

/-- Pop `n` values in sequence, discarding them (`for _ in range(n): self.pop()`). -/
def popN : Nat → ConvState → Except ConvState ConvState
  | 0, s => .ok s
  | n + 1, s =>
    match pop s with
    | .error e => .error e
    | .ok (_, s') => popN n s'

/-! ## Line number table (`InstructionSetConverter.get_lnotab`) -/

/-- The two attributes of an emitted instruction that `get_lnotab` reads:
its `line_number` and its encoded byte length `len(instr)`. -/
structure LnInstr where
  line : Int
  len : Nat
deriving DecidableEq, Repr

/-- The loop body of `get_lnotab`, threading `last_line_number`,
`last_address` and `address` over the instruction stream (the source walks
`self.blocks["RVM"]` block by block; the stream here is that flattened
instruction sequence). -/
def lnotabAux (lastLine : Int) (lastAddr addr : Nat) : List LnInstr → List Int
  | [] => []
  | i :: rest =>
    if lastLine < i.line then
      ((addr : Int) - (lastAddr : Int)) :: (i.line - lastLine) ::
        lnotabAux i.line addr (addr + i.len) rest
    else
      lnotabAux lastLine lastAddr (addr + i.len) rest

/-- Source `InstructionSetConverter.get_lnotab`, starting from
`last_line_number = co_firstlineno`, `last_address = 0`, `address = 0`. -/
def get_lnotab (firstlineno : Int) (instrs : List LnInstr) : List Int :=
  lnotabAux firstlineno 0 0 instrs

/-- Absolute (address, line) stream of the instruction sequence. -/
def withAddresses (addr : Nat) : List LnInstr → List (Nat × Int)
  | [] => []
  | i :: rest => (addr, i.line) :: withAddresses (addr + i.len) rest

/-- The entries `get_lnotab` keeps: exactly those whose line number strictly
exceeds the last kept line number (earlier or equal lines inherit). -/
def emittedEntries (lastLine : Int) : List (Nat × Int) → List (Nat × Int)
  | [] => []
  | (a, l) :: rest =>
    if lastLine < l then (a, l) :: emittedEntries l rest
    else emittedEntries lastLine rest

/-- Delta-encode a list of kept (address, line) entries against a running
(last address, last line) pair. -/
def deltaPairs (lastAddr : Nat) (lastLine : Int) : List (Nat × Int) → List Int
  | [] => []
  | (a, l) :: rest =>
    ((a : Int) - (lastAddr : Int)) :: (l - lastLine) :: deltaPairs a l rest

/-! ## Register-VM instructions

Modelled from the spec: the register-VM instruction classes are spread over
modules absent from the source tree (`LoadFastInstruction`,
`StoreFastInstruction`, `BinOpInstruction`, the load/global variants and the
jump instructions); their field shapes follow §3 of the spec
(`LoadFastReg{dest, source1, protected}`, `LoadConstReg{dest, name1}`, …)
and the keyword arguments passed at each construction site in
`converter.py`, `function.py` and `unary.py`.  The field `prot` is the
`protected` flag of `LoadFastReg` (`protected` is a reserved word in Lean).
Register numbers and other fields are `Int`, as in Python. -/
inductive RInstr
  | loadFast (dest source1 : Int) (prot : Bool)
  | loadConst (dest name1 : Int)
  | loadGlobal (dest name1 : Int)
  | storeFast (dest source1 : Int)
  | storeGlobal (name1 source1 : Int)
  | unaryOp (dest source1 : Int)
  | binOp (dest source1 source2 : Int)
  | compareOp (dest source1 source2 compare_op : Int)
  | buildSeq (dest length : Int)
  | extendSeq (dest source1 : Int)
  | call (dest nargs : Int)
  | callKw (dest nreg nargs : Int)
  | jumpAbs (target : Int)
  | jumpIf (target source1 : Int)
  | ret (source1 : Int)
  | nop
deriving DecidableEq, Repr

/-- Source `getattr(instr, "dest", None)`: which variants carry a `dest` field
(every register-writing variant; `StoreFastReg`'s `dest` is the target local,
`StoreGlobalReg` has `name1` instead of `dest`). -/
def dest? : RInstr → Option Int
  | .loadFast d _ _ => some d
  | .loadConst d _ => some d
  | .loadGlobal d _ => some d
  | .storeFast d _ => some d
  | .unaryOp d _ => some d
  | .binOp d _ _ => some d
  | .compareOp d _ _ _ => some d
  | .buildSeq d _ => some d
  | .extendSeq d _ => some d
  | .call d _ => some d
  | .callKw d _ _ => some d
  | _ => none

/-- Source `getattr(instr, "source1", None)`: the variants carrying a `source1`
register (the `name1` of const/global loads is not a register). -/
def source1? : RInstr → Option Int
  | .loadFast _ s _ => some s
  | .storeFast _ s => some s
  | .storeGlobal _ s => some s
  | .unaryOp _ s => some s
  | .binOp _ s _ => some s
  | .compareOp _ s _ _ => some s
  | .extendSeq _ s => some s
  | .jumpIf _ s => some s
  | .ret s => some s
  | _ => none

/-- Source `getattr(instr, "source2", None)`. -/
def source2? : RInstr → Option Int
  | .binOp _ _ s => some s
  | .compareOp _ _ s _ => some s
  | _ => none

/-- Source `setattr(instr, "source1", v)` on the variants that have `source1`. -/
def setSource1 (i : RInstr) (v : Int) : RInstr :=
  match i with
  | .loadFast d _ p => .loadFast d v p
  | .storeFast d _ => .storeFast d v
  | .storeGlobal n _ => .storeGlobal n v
  | .unaryOp d _ => .unaryOp d v
  | .binOp d _ s2 => .binOp d v s2
  | .compareOp d _ s2 c => .compareOp d v s2 c
  | .extendSeq d _ => .extendSeq d v
  | .jumpIf t _ => .jumpIf t v
  | .ret _ => .ret v
  | i => i

/-- Source `setattr(instr, "source2", v)` on the variants that have `source2`. -/
def setSource2 (i : RInstr) (v : Int) : RInstr :=
  match i with
  | .binOp d s1 _ => .binOp d s1 v
  | .compareOp d s1 _ c => .compareOp d s1 v c
  | i => i

/-- Source `instr.dest = v` on the variants that have `dest`. -/
def setDest (i : RInstr) (v : Int) : RInstr :=
  match i with
  | .loadFast _ s p => .loadFast v s p
  | .loadConst _ n => .loadConst v n
  | .loadGlobal _ n => .loadGlobal v n
  | .storeFast _ s => .storeFast v s
  | .unaryOp _ s => .unaryOp v s
  | .binOp _ s1 s2 => .binOp v s1 s2
  | .compareOp _ s1 s2 c => .compareOp v s1 s2 c
  | .buildSeq _ l => .buildSeq v l
  | .extendSeq _ s => .extendSeq v s
  | .call _ n => .call v n
  | .callKw _ r n => .callKw v r n
  | i => i

/-- Source `isinstance(instr, LoadFastInstruction)`, equally
`hasattr(instr, "protected")`: only `LoadFastReg` carries the flag. -/
def isLoadFast : RInstr → Bool
  | .loadFast _ _ _ => true
  | _ => false

/-- Source `instr.protected = True`. -/
def setProt : RInstr → RInstr
  | .loadFast d s _ => .loadFast d s true
  | i => i

/-! ## Propagation maps (`prop_dict`) -/

/-- The passes' `prop_dict`, a Python dict from register to register,
modelled as an association list. -/
abbrev PropMap := List (Int × Int)

/-- Source `prop_dict.get(k, k)`. -/
def pmGet (m : PropMap) (k : Int) : Int := (m.lookup k).getD k

/-- Source `del prop_dict[k]` (ignoring `KeyError`, as the source does). -/
def pmErase (m : PropMap) (k : Int) : PropMap := m.filter (fun p => p.1 != k)

/-- Source `prop_dict[k] = v`. -/
def pmInsert (m : PropMap) (k v : Int) : PropMap := (k, v) :: pmErase m k

/-! ## Pass 1 — `mark_protected_loads` -/

/-- The implicit contiguous-register window of an instruction:
`BuildSeqReg` covers `[dest, dest+length)`, the call instructions cover
`[dest, dest+nargs)` (`isinstance` checks on `BuildSeqInstruction` /
`CallInstruction`; the class hierarchy of `CallInstructionKW` lives in the
missing instructions module — per spec §4.F both call variants pin
`[dest, dest+nargs)`). -/
def windowOf : RInstr → Option (Int × Int)
  | .buildSeq d len => some (d, d + len)
  | .call d n => some (d, d + n)
  | .callKw d _ n => some (d, d + n)
  | _ => none

/-- The keys of the `saved` dict: the registers `first, first+1, …, last-1`. -/
def intRange (first lastReg : Int) : List Int :=
  (List.range (lastReg - first).toNat).map (fun k => first + k)

/-- The backward walk `for index in range(i - 1, -1, -1)` of
`mark_protected_loads`.  `uncov` is the set of window registers whose
`saved[reg]` is still `False`; a `LoadFastReg` writing an uncovered window
register is protected and covers it; any other instruction (including a
non-load write to a window register) leaves `uncov` unchanged.  The walk
stops at the block start or once every window register is covered. -/
def walkDown (b : List RInstr) (uncov : List Int) : Nat → List RInstr
  | 0 => b
  | j + 1 =>
    if uncov = [] then b
    else
      match b.get? j with
      | none => walkDown b uncov j
      | some instr =>
        match dest? instr with
        | none => walkDown b uncov j
        | some r =>
          if r ∈ uncov then
            if isLoadFast instr then
              walkDown (b.set j (setProt instr)) (uncov.erase r) j
            else walkDown b uncov j
          else walkDown b uncov j

/-- One iteration of the outer loop of `mark_protected_loads`: if the
instruction at index `i` opens a window, run the backward walk from `i-1`. -/
def markAt (b : List RInstr) (i : Nat) : List RInstr :=
  match b.get? i with
  | none => b
  | some instr =>
    match windowOf instr with
    | none => b
    | some (first, lastReg) => walkDown b (intRange first lastReg) i

/-- Source `mark_protected_loads` restricted to one block: scan the block's
instructions front to back, running the window walk at each. -/
def mark_protected_loads_block (b : List RInstr) : List RInstr :=
  (List.range b.length).foldl markAt b

/-- Source `InstructionSetConverter.mark_protected_loads` over the RVM block list. -/
def mark_protected_loads (bs : List (List RInstr)) : List (List RInstr) :=
  bs.map mark_protected_loads_block

/-! ## Pass 2 — `forward_propagate_fast_loads` -/

/-- The body of the forward pass for one instruction: an unprotected
`LoadFastReg{d, s}` records `prop_dict[d] = s` and becomes `NOP`; any other
instruction first rewrites `source1` and `source2` through the map and then
drops its `dest` key from the map. -/
def fwdInstr (m : PropMap) : RInstr → RInstr × PropMap
  | .loadFast d s false => (.nop, pmInsert m d s)
  | i =>
    let i1 := match source1? i with
      | some s => setSource1 i (pmGet m s)
      | none => i
    let i2 := match source2? i1 with
      | some s => setSource2 i1 (pmGet m s)
      | none => i1
    let m1 := match dest? i2 with
      | some d => pmErase m d
      | none => m
    (i2, m1)

/-- The forward pass over one instruction list, threading `prop_dict`. -/
def fwdList (m : PropMap) : List RInstr → List RInstr × PropMap
  | [] => ([], m)
  | i :: rest =>
    let p := fwdInstr m i
    let q := fwdList p.2 rest
    (p.1 :: q.1, q.2)

/-- The forward pass over the block list: as in the source, `prop_dict` is
created once, before the loop over blocks, and threads through all of them. -/
def fwdThread (m : PropMap) : List (List RInstr) → List (List RInstr) × PropMap
  | [] => ([], m)
  | b :: bs =>
    let p := fwdList m b
    let q := fwdThread p.2 bs
    (p.1 :: q.1, q.2)

/-- Source `InstructionSetConverter.forward_propagate_fast_loads`: mark protected
loads, then run the forward pass over all blocks with a single `prop_dict`
(the `dirty` bookkeeping only touches block addresses, not the rewriting). -/
def forward_propagate_fast_loads (bs : List (List RInstr)) : List (List RInstr) :=
  (fwdThread [] (mark_protected_loads bs)).1

/-! ## Pass 3 — `backward_propagate_fast_stores` -/

/-- The body of the backward pass for one instruction: a `StoreFastReg{d, s}`
records `prop_dict[s] = d` and becomes `NOP`; any other instruction rewrites
its `dest` through the map and then drops each of its source registers from
the map. -/
def bwdInstr (m : PropMap) : RInstr → RInstr × PropMap
  | .storeFast d s => (.nop, pmInsert m s d)
  | i =>
    let i1 := match dest? i with
      | some d => setDest i (pmGet m d)
      | none => i
    let m1 := match source1? i with
      | some s => pmErase m s
      | none => m
    let m2 := match source2? i with
      | some s => pmErase m1 s
      | none => m1
    (i1, m2)

/-- Process an already-reversed instruction list front to back
(`enumerate_reversed` walks a block's instructions from last to first). -/
def bwdListRev (m : PropMap) : List RInstr → List RInstr × PropMap
  | [] => ([], m)
  | i :: rest =>
    let p := bwdInstr m i
    let q := bwdListRev p.2 rest
    (p.1 :: q.1, q.2)

/-- The backward pass over one block: instructions are visited in reverse
order and each replacement lands back at its original index. -/
def bwdBlock (m : PropMap) (b : List RInstr) : List RInstr × PropMap :=
  let p := bwdListRev m b.reverse
  (p.1.reverse, p.2)

/-- The backward pass over the block list: the block list itself is walked
front to back (only each block's instructions are reversed), and `prop_dict`
is created once, before the loop over blocks. -/
def bwdThread (m : PropMap) : List (List RInstr) → List (List RInstr) × PropMap
  | [] => ([], m)
  | b :: bs =>
    let p := bwdBlock m b
    let q := bwdThread p.2 bs
    (p.1 :: q.1, q.2)

/-- Source `InstructionSetConverter.backward_propagate_fast_stores`. -/
def backward_propagate_fast_stores (bs : List (List RInstr)) : List (List RInstr) :=
  (bwdThread [] bs).1

/-! ## Conditional-jump lowering (`jump_convert`) and call lowering -/

/-- The converter state seen by `jump_convert`: the stack simulator plus the
entry-stack-level slots of the RVM blocks.  Modelled from the spec:
`Block.set_stacklevel` (module `blocks.py` absent from the tree) stores the
level in the block's entry-stack-level slot; the RVM block list is modelled
by the association `blockLevels` from block index to recorded level. -/
structure JState where
  conv : ConvState
  blockLevels : List (Nat × Int)
deriving DecidableEq, Repr

/-- Source `InstructionSetConverter.set_block_stacklevel(target, level)`. -/
def set_block_stacklevel (s : JState) (target : Nat) (level : Int) : JState :=
  { s with blockLevels :=
      (target, level) :: s.blockLevels.filter (fun p => p.1 != target) }

/-- The `POP_JUMP_IF_FALSE` / `POP_JUMP_IF_TRUE` branch of
`InstructionSetConverter.jump_convert`:
`self.set_block_stacklevel(oparg, self.top())` runs first, then the emitted
instruction's `source1` is `self.pop()`. -/
def jump_convert_pop_jump (s : JState) (target : Int) (oparg : Nat) :
    Except ConvState (RInstr × JState) :=
  let s1 := set_block_stacklevel s oparg (top s.conv)
  match pop s1.conv with
  | .error e => .error e
  | .ok (src, c) => .ok (.jumpIf target src, { s1 with conv := c })

/-- The `CALL_FUNCTION_KW` branch of
`InstructionSetConverter.function_convert` (bound in the class-level
`dispatch` table of `converter.py`): `nreg = top() - 1`,
`dest = top() - nargs - 2`, pop `nargs + 1` values, emit
`CALL_FUNCTION_KW_REG`. -/
def function_convert_kw (s : ConvState) (nargs : Nat) :
    Except ConvState (RInstr × ConvState) :=
  let nreg := top s - 1
  let dest := top s - nargs - 2
  match popN (nargs + 1) s with
  | .error e => .error e
  | .ok c => .ok (.callKw dest nreg nargs, c)

/-- Source `function_kw` from `function.py` (bound to `CALL_FUNCTION_KW` in the
module-level `DISPATCH` table): `nreg = top()`, `dest = top() - nargs - 1`,
pop `nargs + 1` values, emit `CALL_FUNCTION_KW_REG`. -/
def function_kw (s : ConvState) (nargs : Nat) :
    Except ConvState (RInstr × ConvState) :=
  let nreg := top s
  let dest := top s - nargs - 1
  match popN (nargs + 1) s with
  | .error e => .error e
  | .ok c => .ok (.callKw dest nreg nargs, c)

/-! ## Linearizer (`OptimizeFilter.findlabels` / `find_blocks`)

The input byte string has even length (wordcode), so it is modelled as the
list of its `(opcode, arg)` byte pairs; offsets count bytes, stepping by 2.
The host opcode tables consulted (`opcode.opmap["EXTENDED_ARG"]`,
`opcode.hasjrel`, `opcode.hasjabs`) are a parameter. -/

/-- The slice of the host `opcode` module the linearizer consults. -/
structure Catalog where
  extArg : Nat
  jrel : List Nat
  jabs : List Nat
deriving DecidableEq, Repr

/-- Source `Instruction.is_jump()`: `opcode in hasjabs or opcode in hasjrel`. -/
def is_jump (cat : Catalog) (op : Nat) : Bool :=
  decide (op ∈ cat.jabs) || decide (op ∈ cat.jrel)

/-- The scan loop of `findlabels`: fold `EXTENDED_ARG` bytes into
`carry_oparg`, and for every non-extended jump record `i + oparg` (relative)
or `oparg` (absolute). -/
def findlabelsAux (cat : Catalog) : Nat → Nat → List (Nat × Nat) → List Nat
  | _, _, [] => []
  | i, carry, (op, arg) :: rest =>
    let carry1 := carry <<< 8 ||| arg
    if op = cat.extArg then findlabelsAux cat (i + 2) carry1 rest
    else
      let oparg := carry1
      let ls := findlabelsAux cat (i + 2) 0 rest
      if op ∈ cat.jrel then (i + oparg) :: ls
      else if op ∈ cat.jabs then oparg :: ls
      else ls

/-- Source `OptimizeFilter.findlabels`: the label set `{0} ∪ {jump targets}` (the
source builds a Python set and sorts it; downstream only membership in the
labels is consulted, so the collected list is kept unsorted and possibly
with duplicates — same membership). -/
def findlabels (cat : Catalog) (code : List (Nat × Nat)) : List Nat :=
  0 :: findlabelsAux cat 0 0 code

/-- A PyVM instruction as built by `find_blocks`: a `PyVMInstruction` with
its folded oparg, or a `JumpInstruction` carrying the absolute byte
`target_address` (line-number stamping omitted: it never affects block
structure or jump targets). -/
inductive SrcInstr
  | raw (op oparg : Nat)
  | jump (op : Nat) (targetAddr : Nat)
deriving DecidableEq, Repr

/-- A PyVM `Block`.  Modelled from the spec: the `Block` class lives in the
absent `blocks.py`; per spec §3 a block has an address and an ordered
instruction list (the block number is its position in the block list). -/
structure SrcBlock where
  address : Nat
  instrs : List SrcInstr
deriving DecidableEq, Repr

/-- The loop of `find_blocks`: at each offset in `labels` open a new block;
`EXTENDED_ARG` pairs accumulate into `ext_oparg`; any other pair appends a
`RawSource` or `Jump` instruction to the current block (relative jumps store
`oparg + offset`, absolute jumps store `oparg`) and resets `ext_oparg`.
`cur` is the block currently being appended to (`none` before the first
label is seen; the main entry passes label 0, so it is `none` only at the
very start). -/
def findBlocksAux (cat : Catalog) (labels : List Nat) :
    Nat → Nat → List (Nat × Nat) → List SrcBlock → Option SrcBlock → List SrcBlock
  | _, _, [], done, cur => done ++ cur.toList
  | offset, ext, (op, arg) :: rest, done, cur =>
    let done1 := if offset ∈ labels then done ++ cur.toList else done
    let cur1 := if offset ∈ labels then some ⟨offset, []⟩ else cur
    if op = cat.extArg then
      findBlocksAux cat labels (offset + 2) (ext <<< 8 ||| arg) rest done1 cur1
    else
      let oparg := ext <<< 8 ||| arg
      let instr :=
        if is_jump cat op then
          SrcInstr.jump op (if op ∈ cat.jrel then oparg + offset else oparg)
        else SrcInstr.raw op oparg
      findBlocksAux cat labels (offset + 2) 0 rest done1
        (cur1.map (fun blk => ⟨blk.address, blk.instrs ++ [instr]⟩))

/-- Source `OptimizeFilter.find_blocks` (block construction; the final jump-target
renumbering of `convert_jump_targets_to_blocks` only replaces matching
addresses by block numbers and is captured by `accepts` below). -/
def find_blocks (cat : Catalog) (code : List (Nat × Nat)) : List SrcBlock :=
  findBlocksAux cat (findlabels cat code) 0 0 code [] none

/-- The `target_address` values of a block's jump instructions. -/
def jumpTargets (b : SrcBlock) : List Nat :=
  b.instrs.filterMap (fun i =>
    match i with
    | .jump _ t => some t
    | _ => none)

/-- All jump target addresses across the block list. -/
def allJumpTargets (bs : List SrcBlock) : List Nat :=
  bs.flatMap jumpTargets

/-- The byte string is accepted by the linearizer: it is non-empty (with no
blocks, `convert_jump_targets_to_blocks` fails on `blocks[0]`) and every
jump's `target_address` matches some block's address (otherwise the
`assert instr.target != -1` fails — a fatal inconsistency). -/
def accepts (cat : Catalog) (code : List (Nat × Nat)) : Prop :=
  code ≠ [] ∧
  ∀ t ∈ allJumpTargets (find_blocks cat code),
    t ∈ (find_blocks cat code).map SrcBlock.address

instance (cat : Catalog) (code : List (Nat × Nat)) : Decidable (accepts cat code) := by
  unfold accepts
  infer_instance

/-- The offsets `0, 2, 4, …` of the scan that lie in `labels` — exactly the
addresses at which `find_blocks` opens a block. -/
def offsetsIn (labels : List Nat) : Nat → List (Nat × Nat) → List Nat
  | _, [] => []
  | offset, _ :: rest =>
    (if offset ∈ labels then [offset] else []) ++ offsetsIn labels (offset + 2) rest

/-! ## Target mnemonic selection (dispatch handlers of `converter.py`)

Each dispatch handler looks the emitted opcode up in `opcode.opmap` under a
mnemonic computed from the source opcode's name; the mnemonic computation of
each handler is modelled here at the string level (source opcodes are
identified by their `opcode.opname` mnemonics, the host table being external). -/

/-- The source opcodes bound to `unary_convert`. -/
def unaryNames : List String :=
  ["UNARY_INVERT", "UNARY_POSITIVE", "UNARY_NEGATIVE", "UNARY_NOT"]

/-- The source opcodes bound to `binary_convert`. -/
def binaryNames : List String :=
  ["BINARY_POWER", "BINARY_MULTIPLY", "BINARY_MATRIX_MULTIPLY",
   "BINARY_TRUE_DIVIDE", "BINARY_FLOOR_DIVIDE", "BINARY_MODULO",
   "BINARY_ADD", "BINARY_SUBTRACT", "BINARY_LSHIFT", "BINARY_RSHIFT",
   "BINARY_AND", "BINARY_XOR", "BINARY_OR", "BINARY_SUBSCR",
   "INPLACE_POWER", "INPLACE_MULTIPLY", "INPLACE_MATRIX_MULTIPLY",
   "INPLACE_TRUE_DIVIDE", "INPLACE_FLOOR_DIVIDE", "INPLACE_MODULO",
   "INPLACE_ADD", "INPLACE_SUBTRACT", "INPLACE_LSHIFT", "INPLACE_RSHIFT",
   "INPLACE_AND", "INPLACE_XOR", "INPLACE_OR"]

/-- All source mnemonics with a (non-commented-out) dispatch entry. -/
def dispatchedSrcNames : List String :=
  unaryNames ++ binaryNames ++
  ["CALL_FUNCTION", "CALL_FUNCTION_KW",
   "JUMP_FORWARD", "JUMP_ABSOLUTE", "POP_JUMP_IF_FALSE", "POP_JUMP_IF_TRUE",
   "RETURN_VALUE", "LOAD_CONST", "LOAD_GLOBAL", "LOAD_FAST",
   "STORE_FAST", "STORE_GLOBAL",
   "BUILD_TUPLE", "BUILD_LIST", "LIST_EXTEND", "BUILD_MAP", "COMPARE_OP"]

/-- The mnemonic under which each dispatch handler looks up the opcode of the
instruction it emits: `opname + "_REG"` in `unary_convert`, `binary_convert`,
`load_convert`, `store_convert`, `seq_convert` and the `RETURN_VALUE` branch
of `jump_convert`; literal `"…_REG"` strings in `function_convert` and
`compare_convert`; `(opname + "_REG")[4:]` for the pop-jumps; and the
unchanged source mnemonic for `JUMP_FORWARD` / `JUMP_ABSOLUTE`. -/
def targetMnemonic (src : String) : Option String :=
  if src ∈ unaryNames then some (src ++ "_REG")
  else if src ∈ binaryNames then some (src ++ "_REG")
  else if src = "CALL_FUNCTION" then some "CALL_FUNCTION_REG"
  else if src = "CALL_FUNCTION_KW" then some "CALL_FUNCTION_KW_REG"
  else if src = "RETURN_VALUE" then some (src ++ "_REG")
  else if src = "POP_JUMP_IF_FALSE" ∨ src = "POP_JUMP_IF_TRUE" then
    some ((src ++ "_REG").drop 4)
  else if src = "JUMP_FORWARD" ∨ src = "JUMP_ABSOLUTE" then some src
  else if src = "LOAD_CONST" ∨ src = "LOAD_GLOBAL" ∨ src = "LOAD_FAST" then
    some (src ++ "_REG")
  else if src = "STORE_FAST" ∨ src = "STORE_GLOBAL" then some (src ++ "_REG")
  else if src = "BUILD_TUPLE" ∨ src = "BUILD_LIST" ∨ src = "LIST_EXTEND"
      ∨ src = "BUILD_MAP" then some (src ++ "_REG")
  else if src = "COMPARE_OP" then some "COMPARE_OP_REG"
  else none

/-! ## Supporting lemmas -/

theorem fwdList_append (xs ys : List RInstr) : ∀ m : PropMap,
    fwdList m (xs ++ ys) =
      ((fwdList m xs).1 ++ (fwdList (fwdList m xs).2 ys).1,
       (fwdList (fwdList m xs).2 ys).2) := by
  induction xs with
  | nil => intro m; simp [fwdList]
  | cons x xs ih => intro m; simp [fwdList, ih]

theorem fwdThread_flatten (bs : List (List RInstr)) : ∀ m : PropMap,
    (fwdThread m bs).1.flatten = (fwdList m bs.flatten).1 ∧
    (fwdThread m bs).2 = (fwdList m bs.flatten).2 := by
  induction bs with
  | nil => intro m; simp [fwdThread, fwdList]
  | cons b bs ih =>
    intro m
    simp [fwdThread, fwdList_append, (ih (fwdList m b).2).1, (ih (fwdList m b).2).2]

theorem bwdThread_append (bs1 bs2 : List (List RInstr)) : ∀ m : PropMap,
    bwdThread m (bs1 ++ bs2) =
      ((bwdThread m bs1).1 ++ (bwdThread (bwdThread m bs1).2 bs2).1,
       (bwdThread (bwdThread m bs1).2 bs2).2) := by
  induction bs1 with
  | nil => intro m; simp [bwdThread]
  | cons b bs ih => intro m; simp [bwdThread, ih]

theorem pop_ok (s : ConvState) (v : Int) (c : ConvState)
    (h : pop s = Except.ok (v, c)) :
    v = s.stacklevel - 1 ∧ c.stacklevel = s.stacklevel - 1 ∧
    c.nlocals = s.nlocals ∧ c.max_stacklevel = s.max_stacklevel := by
  unfold pop at h
  simp only at h
  split at h
  · exact absurd h (by simp)
  · rw [Except.ok.injEq, Prod.mk.injEq] at h
    obtain ⟨hv, hc⟩ := h
    subst hc
    exact ⟨hv.symm, rfl, rfl, rfl⟩

theorem popN_ok (n : Nat) : ∀ s c : ConvState, popN n s = Except.ok c →
    c.stacklevel = s.stacklevel - n ∧ c.nlocals = s.nlocals ∧
    c.max_stacklevel = s.max_stacklevel := by
  induction n with
  | zero =>
    intro s c h
    simp [popN] at h
    simp [← h]
  | succ n ih =>
    intro s c h
    rw [popN] at h
    cases hp : pop s with
    | error e => rw [hp] at h; exact absurd h (by simp)
    | ok p =>
      obtain ⟨v, s'⟩ := p
      rw [hp] at h
      obtain ⟨-, h1, h2, h3⟩ := pop_ok s v s' hp
      have hrec := ih _ _ h
      refine ⟨?_, hrec.2.1.trans h2, hrec.2.2.trans h3⟩
      rw [hrec.1, h1]
      push_cast
      ring

theorem allJumpTargets_append (xs ys : List SrcBlock) :
    allJumpTargets (xs ++ ys) = allJumpTargets xs ++ allJumpTargets ys := by
  simp [allJumpTargets]

theorem findBlocksAux_addresses (cat : Catalog) (labels : List Nat)
    (pairs : List (Nat × Nat)) :
    ∀ (offset ext : Nat) (done : List SrcBlock) (cur : Option SrcBlock),
      (findBlocksAux cat labels offset ext pairs done cur).map SrcBlock.address =
        done.map SrcBlock.address ++ cur.toList.map SrcBlock.address ++
          offsetsIn labels offset pairs := by
  induction pairs with
  | nil => intro offset ext done cur; simp [findBlocksAux, offsetsIn]
  | cons p rest ih =>
    obtain ⟨op, arg⟩ := p
    intro offset ext done cur
    by_cases hl : offset ∈ labels <;> by_cases he : op = cat.extArg <;>
      cases cur <;> simp [findBlocksAux, offsetsIn, hl, he, ih]

theorem offsetsIn_lb (labels : List Nat) (pairs : List (Nat × Nat)) :
    ∀ offset, ∀ x ∈ offsetsIn labels offset pairs, offset ≤ x := by
  induction pairs with
  | nil => intro offset x hx; simp [offsetsIn] at hx
  | cons p rest ih =>
    intro offset x hx
    by_cases hl : offset ∈ labels
    · simp only [offsetsIn, hl, if_pos, List.singleton_append, List.mem_cons] at hx
      rcases hx with rfl | hx
      · exact le_refl x
      · have := ih (offset + 2) x hx; omega
    · simp only [offsetsIn, hl, if_neg, List.nil_append, ite_false] at hx
      have := ih (offset + 2) x hx; omega

theorem offsetsIn_pairwise (labels : List Nat) (pairs : List (Nat × Nat)) :
    ∀ offset, (offsetsIn labels offset pairs).Pairwise (· < ·) := by
  induction pairs with
  | nil => intro offset; simp [offsetsIn]
  | cons p rest ih =>
    intro offset
    by_cases hl : offset ∈ labels
    · simp only [offsetsIn, hl, if_pos, List.singleton_append]
      refine List.Pairwise.cons ?_ (ih (offset + 2))
      intro x hx
      have := offsetsIn_lb labels rest (offset + 2) x hx
      omega
    · simp only [offsetsIn, hl, ite_false, List.nil_append]
      exact ih (offset + 2)

theorem findBlocksAux_targets_some (cat : Catalog) (labels : List Nat)
    (pairs : List (Nat × Nat)) :
    ∀ (offset ext : Nat) (done : List SrcBlock) (b : SrcBlock),
      allJumpTargets (findBlocksAux cat labels offset ext pairs done (some b)) =
        allJumpTargets done ++ jumpTargets b ++ findlabelsAux cat offset ext pairs := by
  induction pairs with
  | nil =>
    intro offset ext done b
    simp [findBlocksAux, findlabelsAux, allJumpTargets]
  | cons p rest ih =>
    obtain ⟨op, arg⟩ := p
    intro offset ext done b
    by_cases hl : offset ∈ labels <;> by_cases he : op = cat.extArg
    · simp [findBlocksAux, findlabelsAux, hl, he]
      rw [ih]
      simp [allJumpTargets_append, allJumpTargets, jumpTargets]
    · by_cases hrel : op ∈ cat.jrel <;> by_cases habs : op ∈ cat.jabs <;>
        (simp [findBlocksAux, findlabelsAux, hl, he, hrel, habs, is_jump];
         rw [ih];
         simp [allJumpTargets_append, allJumpTargets, jumpTargets,
           List.filterMap_append, Nat.add_comm])
    · simp [findBlocksAux, findlabelsAux, hl, he]
      rw [ih]
      simp [allJumpTargets_append, allJumpTargets, jumpTargets]
    · by_cases hrel : op ∈ cat.jrel <;> by_cases habs : op ∈ cat.jabs <;>
        (simp [findBlocksAux, findlabelsAux, hl, he, hrel, habs, is_jump];
         rw [ih];
         simp [allJumpTargets_append, allJumpTargets, jumpTargets,
           List.filterMap_append, Nat.add_comm])

theorem find_blocks_targets (cat : Catalog) (code : List (Nat × Nat))
    (hne : code ≠ []) :
    allJumpTargets (find_blocks cat code) = findlabelsAux cat 0 0 code := by
  obtain ⟨p, rest, rfl⟩ := List.exists_cons_of_ne_nil hne
  obtain ⟨op, arg⟩ := p
  unfold find_blocks
  by_cases he : op = cat.extArg
  · simp [findBlocksAux, findlabelsAux, findlabels, he]
    rw [findBlocksAux_targets_some]
    simp [allJumpTargets, jumpTargets]
  · by_cases hrel : op ∈ cat.jrel <;> by_cases habs : op ∈ cat.jabs <;>
      (simp [findBlocksAux, findlabelsAux, findlabels, he, hrel, habs, is_jump];
       rw [findBlocksAux_targets_some];
       simp [allJumpTargets, jumpTargets])

theorem flatMap_pair_length (extOp : Nat) (l : List Nat) :
    (l.flatMap (fun a => [extOp, a])).length = 2 * l.length := by
  induction l with
  | nil => rfl
  | cons a rest ih => simp [List.flatMap_cons, ih]; omega

theorem lnotabAux_eq_deltaPairs (instrs : List LnInstr) :
    ∀ lastLine : Int, ∀ lastAddr addr : Nat,
      lnotabAux lastLine lastAddr addr instrs =
        deltaPairs lastAddr lastLine (emittedEntries lastLine (withAddresses addr instrs)) := by
  induction instrs with
  | nil => intro lastLine lastAddr addr; rfl
  | cons i rest ih =>
    intro lastLine lastAddr addr
    by_cases h : lastLine < i.line
    · simp [lnotabAux, withAddresses, emittedEntries, deltaPairs, h, ih]
    · simp [lnotabAux, withAddresses, emittedEntries, h, ih]

/-! ## Claim theorems -/

/-- C1 counterexample: the claim states that the forward load-propagation
pass rewrites every register block exactly as running the pass on that block
alone would, carrying no `prop_dict` entries across blocks.  On the block
list `[[LoadFastReg{2, 0}], [BinOpReg{3, 2, 2}]]` the pass rewrites the
second block to `BinOpReg{3, 0, 0}` using the `2 ↦ 0` entry created in the
first block, while the pass run on `[BinOpReg{3, 2, 2}]` alone leaves it
unchanged; the backward store-propagation pass likewise rewrites
`BinOpReg{2, 1, 1}` in a later block through the `2 ↦ 0` entry left by a
`StoreFastReg{0, 2}` in an earlier block. -/
theorem c1_counterexample :
    ¬ (forward_propagate_fast_loads [[.loadFast 2 0 false], [.binOp 3 2 2]] =
       [[.loadFast 2 0 false], [.binOp 3 2 2]].map
         (fun b => (forward_propagate_fast_loads [b]).flatten)) ∧
    ¬ (backward_propagate_fast_stores [[.storeFast 0 2], [.binOp 2 1 1]] =
       [[.storeFast 0 2], [.binOp 2 1 1]].map
         (fun b => (backward_propagate_fast_stores [b]).flatten)) := by decide

/-- C1 amended: both passes share a single `prop_dict` created before the
loop over blocks, so state carries from each block into all later ones: the
forward pass is equivalent to running it over the concatenated instruction
stream of the (protection-marked) blocks, and the backward pass rewrites a
suffix of the block list starting from the map left by the preceding prefix
(each block's instructions being visited in reverse, the block list itself
front to back). -/
theorem c1_amended :
    (∀ bs : List (List RInstr),
      (forward_propagate_fast_loads bs).flatten =
        (fwdList [] (mark_protected_loads bs).flatten).1) ∧
    (∀ bs1 bs2 : List (List RInstr),
      backward_propagate_fast_stores (bs1 ++ bs2) =
        (bwdThread [] bs1).1 ++ (bwdThread (bwdThread [] bs1).2 bs2).1) := by
  constructor
  · intro bs
    unfold forward_propagate_fast_loads
    exact (fwdThread_flatten (mark_protected_loads bs) []).1
  · intro bs1 bs2
    unfold backward_propagate_fast_stores
    rw [bwdThread_append]

/-- C2 counterexample: the claim states that the recorded entry stack level
equals `top()` taken after the operand pop (the pre-instruction level minus
one).  At pre-instruction stack level 3 the code records 3 — the
`set_block_stacklevel(oparg, self.top())` call runs before `self.pop()` —
where the claim predicts 3 − 1. -/
theorem c2_counterexample :
    jump_convert_pop_jump ⟨⟨3, 1, 5⟩, []⟩ 1 1 =
      Except.ok (.jumpIf 1 2, ⟨⟨2, 1, 5⟩, [(1, 3)]⟩) ∧
    (3 : Int) ≠ 3 - 1 := by decide

/-- C2 amended: for every successfully lowered `POP_JUMP_IF_FALSE` /
`POP_JUMP_IF_TRUE`, the value recorded as the target block's entry stack
level equals the simulator's `top()` taken before the conditional's operand
register is popped (the pre-instruction stack level), while the emitted
instruction's `source1` is the popped register (pre-instruction level minus
one). -/
theorem c2_amended (s : JState) (target : Int) (oparg : Nat) (i : RInstr)
    (s' : JState)
    (h : jump_convert_pop_jump s target oparg = Except.ok (i, s')) :
    s'.blockLevels.lookup oparg = some (top s.conv) ∧
    i = .jumpIf target (s.conv.stacklevel - 1) := by
  unfold jump_convert_pop_jump at h
  simp only at h
  cases hp : pop (set_block_stacklevel s oparg (top s.conv)).conv with
  | error e => simp [hp] at h
  | ok p =>
    obtain ⟨v, c⟩ := p
    simp only [hp] at h
    have hv := (pop_ok _ _ _ hp).1
    rw [Except.ok.injEq, Prod.mk.injEq] at h
    obtain ⟨hi, hs⟩ := h
    subst hs
    refine ⟨?_, ?_⟩
    · simp [set_block_stacklevel, List.lookup]
    · rw [← hi, hv]
      rfl

/-- Witness for C2 amended at the concrete state of the counterexample. -/
theorem c2_amended_witness :
    (JState.blockLevels ⟨⟨2, 1, 5⟩, [(1, 3)]⟩).lookup 1 =
      some (top (JState.conv ⟨⟨3, 1, 5⟩, []⟩)) ∧
    RInstr.jumpIf 1 2 = .jumpIf 1 ((⟨3, 1, 5⟩ : ConvState).stacklevel - 1) :=
  c2_amended ⟨⟨3, 1, 5⟩, []⟩ 1 1 (.jumpIf 1 2) ⟨⟨2, 1, 5⟩, [(1, 3)]⟩ (by decide)

/-- C3 counterexample: the claim quantifies over every lowering bound to
`CALL_FUNCTION_KW` in a dispatch table and asserts `nreg = top() − 1`,
`dest = top() − n − 2`.  The binding in `function.py`'s module-level
`DISPATCH` table computes `nreg = top()` and `dest = top() − n − 1`: at
stack level 5 with `n = 1` it emits `CallKwReg{dest = 3, nreg = 5, nargs = 1}`
where the claim predicts `CallKwReg{dest = 2, nreg = 4, nargs = 1}`. -/
theorem c3_counterexample :
    function_kw ⟨5, 0, 9⟩ 1 = Except.ok (.callKw 3 5 1, ⟨3, 0, 9⟩) ∧
    (5 : Int) ≠ 5 - 1 := by decide

/-- C3 amended: the two dispatch-table bindings for `CALL_FUNCTION_KW`
disagree.  The `converter.py` class-level `dispatch` binding
(`function_convert`) computes `nreg = top() − 1` and `dest = top() − n − 2`;
the `function.py` module-level `DISPATCH` binding (`function_kw`) computes
`nreg = top()` and `dest = top() − n − 1`.  Both pop exactly `n + 1` stack
slots and emit `CallKwReg{dest, nreg, nargs = n}`. -/
theorem c3_amended (s : ConvState) (n : Nat) :
    (∀ i c, function_convert_kw s n = Except.ok (i, c) →
      i = .callKw (top s - n - 2) (top s - 1) n ∧
      c.stacklevel = s.stacklevel - (n + 1)) ∧
    (∀ i c, function_kw s n = Except.ok (i, c) →
      i = .callKw (top s - n - 1) (top s) n ∧
      c.stacklevel = s.stacklevel - (n + 1)) := by
  constructor
  · intro i c h
    unfold function_convert_kw at h
    simp only at h
    cases hp : popN (n + 1) s with
    | error e => simp [hp] at h
    | ok c' =>
      simp only [hp] at h
      rw [Except.ok.injEq, Prod.mk.injEq] at h
      obtain ⟨hi, hc⟩ := h
      subst hc
      have := (popN_ok (n + 1) s c' hp).1
      rw [this]
      exact ⟨hi.symm, by push_cast; ring⟩
  · intro i c h
    unfold function_kw at h
    simp only at h
    cases hp : popN (n + 1) s with
    | error e => simp [hp] at h
    | ok c' =>
      simp only [hp] at h
      rw [Except.ok.injEq, Prod.mk.injEq] at h
      obtain ⟨hi, hc⟩ := h
      subst hc
      have := (popN_ok (n + 1) s c' hp).1
      rw [this]
      exact ⟨hi.symm, by push_cast; ring⟩

/-- Witness for C3 amended: both bindings applied at stack level 5 with
`n = 1`. -/
theorem c3_amended_witness :
    (RInstr.callKw 2 4 1 =
        .callKw (top ⟨5, 0, 9⟩ - (1 : Nat) - 2) (top ⟨5, 0, 9⟩ - 1) (1 : Nat) ∧
      (⟨3, 0, 9⟩ : ConvState).stacklevel =
        (⟨5, 0, 9⟩ : ConvState).stacklevel - ((1 : Nat) + 1)) ∧
    (RInstr.callKw 3 5 1 =
        .callKw (top ⟨5, 0, 9⟩ - (1 : Nat) - 1) (top ⟨5, 0, 9⟩) (1 : Nat) ∧
      (⟨3, 0, 9⟩ : ConvState).stacklevel =
        (⟨5, 0, 9⟩ : ConvState).stacklevel - ((1 : Nat) + 1)) :=
  ⟨(c3_amended ⟨5, 0, 9⟩ 1).1 (.callKw 2 4 1) ⟨3, 0, 9⟩ (by decide),
   (c3_amended ⟨5, 0, 9⟩ 1).2 (.callKw 3 5 1) ⟨3, 0, 9⟩ (by decide)⟩

/-- C4 counterexample: the claim states that a non-`LoadFastReg` instruction
writing a window register marks it covered, so that no earlier `LoadFastReg`
writing the same register is protected.  In the block
`[LoadFastReg{2, 0}, BinOpReg{2, 0, 1}, BuildSeqReg{2, 1}]` the binary
operation writes window register 2 between the load and the build, yet the
load is still marked protected — the walk acts only on instructions carrying
the `protected` attribute and never marks a register covered at a non-load. -/
theorem c4_counterexample :
    mark_protected_loads_block [.loadFast 2 0 false, .binOp 2 0 1, .buildSeq 2 1] =
      [.loadFast 2 0 true, .binOp 2 0 1, .buildSeq 2 1] ∧
    RInstr.loadFast 2 0 true ≠ .loadFast 2 0 false := by decide

/-- C4 amended: during the backward walk of `mark_protected_loads`, an
instruction that is not a `LoadFastReg` is skipped without effect even when
it writes an uncovered window register — the register stays uncovered, so a
`LoadFastReg` writing it earlier in the block is still marked protected. -/
theorem c4_amended (b : List RInstr) (uncov : List Int) (j : Nat)
    (instr : RInstr) (hget : b.get? j = some instr)
    (hnl : isLoadFast instr = false) (hne : uncov ≠ []) :
    walkDown b uncov (j + 1) = walkDown b uncov j := by
  rw [walkDown, if_neg hne, hget]
  cases hd : dest? instr with
  | none => simp [hd]
  | some r => simp [hd, hnl, ite_self]

/-- Witness for C4 amended: the skipped `BinOpReg{2, 0, 1}` of the
counterexample block. -/
theorem c4_amended_witness :
    walkDown [.loadFast 2 0 false, .binOp 2 0 1, .buildSeq 2 1] [2] 2 =
      walkDown [.loadFast 2 0 false, .binOp 2 0 1, .buildSeq 2 1] [2] 1 :=
  c4_amended _ _ 1 (.binOp 2 0 1) (by decide) (by decide) (by decide)

/-- C5 counterexample: the claim states that every dispatched source opcode
other than `JUMP_FORWARD` / `JUMP_ABSOLUTE` emits the opcode looked up under
`opname(src) + "_REG"`.  `POP_JUMP_IF_FALSE` (which has a dispatch entry and
is neither of the two jumps) is looked up under
`(opname + "_REG")[4:] = "JUMP_IF_FALSE_REG"`, not under
`"POP_JUMP_IF_FALSE_REG"`. -/
theorem c5_counterexample :
    targetMnemonic "POP_JUMP_IF_FALSE" = some "JUMP_IF_FALSE_REG" ∧
    some "JUMP_IF_FALSE_REG" ≠ some ("POP_JUMP_IF_FALSE" ++ "_REG") := by decide

/-- C5 amended: for every source opcode with a dispatch entry other than
`JUMP_FORWARD`, `JUMP_ABSOLUTE`, `POP_JUMP_IF_FALSE` and `POP_JUMP_IF_TRUE`,
the emitted opcode is looked up under `opname(src) + "_REG"`;
`JUMP_FORWARD` / `JUMP_ABSOLUTE` keep the source opcode (lookup under the
unchanged source mnemonic); and the two pop-jumps are looked up under
`(opname(src) + "_REG")` with its first four characters (`"POP_"`) removed. -/
theorem c5_amended :
    ∀ src ∈ dispatchedSrcNames,
      (src ≠ "JUMP_FORWARD" → src ≠ "JUMP_ABSOLUTE" →
        src ≠ "POP_JUMP_IF_FALSE" → src ≠ "POP_JUMP_IF_TRUE" →
        targetMnemonic src = some (src ++ "_REG")) ∧
      ((src = "JUMP_FORWARD" ∨ src = "JUMP_ABSOLUTE") →
        targetMnemonic src = some src) ∧
      ((src = "POP_JUMP_IF_FALSE" ∨ src = "POP_JUMP_IF_TRUE") →
        targetMnemonic src = some ((src ++ "_REG").drop 4)) := by decide

/-- Witness for C5 amended at `BINARY_ADD`. -/
theorem c5_amended_witness :
    targetMnemonic "BINARY_ADD" = some ("BINARY_ADD" ++ "_REG") :=
  (c5_amended "BINARY_ADD" (by decide)).1 (by decide) (by decide) (by decide)
    (by decide)

/-- C6: for every byte string accepted by the linearizer and every label in
the set returned by `findlabels` (0 plus every folded relative target
`i + oparg` and every folded absolute target `oparg`), `find_blocks` opens
exactly one source block whose address equals that label. -/
theorem c6_one_block_per_label (cat : Catalog) (code : List (Nat × Nat))
    (hacc : accepts cat code) :
    ∀ L ∈ findlabels cat code,
      ((find_blocks cat code).map SrcBlock.address).count L = 1 := by
  obtain ⟨hne, htgt⟩ := hacc
  have haddr : (find_blocks cat code).map SrcBlock.address =
      offsetsIn (findlabels cat code) 0 code := by
    unfold find_blocks
    simpa using findBlocksAux_addresses cat (findlabels cat code) code 0 0 [] none
  have hnd : (offsetsIn (findlabels cat code) 0 code).Nodup :=
    (offsetsIn_pairwise (findlabels cat code) code 0).imp (fun h => Nat.ne_of_lt h)
  intro L hL
  rw [haddr]
  refine List.count_eq_one_of_mem hnd ?_
  rcases List.mem_cons.mp hL with h0 | hmem
  · subst h0
    obtain ⟨p, rest, rfl⟩ := List.exists_cons_of_ne_nil hne
    have h0l : (0 : Nat) ∈ findlabels cat (p :: rest) := List.mem_cons_self _ _
    simp [offsetsIn, h0l]
  · have hjt : L ∈ allJumpTargets (find_blocks cat code) := by
      rw [find_blocks_targets cat code hne]; exact hmem
    have hmem2 := htgt L hjt
    rw [haddr] at hmem2
    exact hmem2

/-- Witness for C6: a two-pair byte string whose only jump is an absolute
jump (opcode 113) to offset 0; it is accepted, and label 0 is the address of
exactly one block. -/
theorem c6_one_block_per_label_witness :
    ((find_blocks ⟨144, [], [113]⟩ [(113, 0), (83, 0)]).map
      SrcBlock.address).count 0 = 1 :=
  c6_one_block_per_label ⟨144, [], [113]⟩ [(113, 0), (83, 0)] (by decide) 0
    (by decide)

/-- C7: `push()` increments `stacklevel` and returns the incremented value
minus one, raising `StackSizeException` if and only if the incremented
`stacklevel` exceeds `max_stacklevel`; `pop()` decrements `stacklevel` and
returns the decremented value, raising `StackSizeException` if and only if
the decremented `stacklevel` falls below `nlocals`. -/
theorem c7_push_pop (s : ConvState) :
    ((∃ e, push s = Except.error e) ↔ s.max_stacklevel < s.stacklevel + 1) ∧
    (s.stacklevel + 1 ≤ s.max_stacklevel →
      push s = Except.ok (s.stacklevel + 1 - 1, { s with stacklevel := s.stacklevel + 1 })) ∧
    ((∃ e, pop s = Except.error e) ↔ s.stacklevel - 1 < s.nlocals) ∧
    (s.nlocals ≤ s.stacklevel - 1 →
      pop s = Except.ok (s.stacklevel - 1, { s with stacklevel := s.stacklevel - 1 })) := by
  refine ⟨?_, ?_, ?_, ?_⟩
  · by_cases h : s.max_stacklevel < s.stacklevel + 1 <;> simp [push, h]
  · intro h
    have h' : ¬ s.max_stacklevel < s.stacklevel + 1 := by omega
    simp [push, h']
  · by_cases h : s.stacklevel - 1 < s.nlocals <;> simp [pop, h]
  · intro h
    have h' : ¬ s.stacklevel - 1 < s.nlocals := by omega
    simp [pop, h']

/-- Witness for C7 at a concrete state (`stacklevel = 2`, `nlocals = 1`,
`max_stacklevel = 3`), where both the push and the pop succeed. -/
theorem c7_push_pop_witness :
    push ⟨2, 1, 3⟩ = Except.ok ((2 : Int) + 1 - 1, ⟨(2 : Int) + 1, 1, 3⟩) ∧
    pop ⟨2, 1, 3⟩ = Except.ok ((2 : Int) - 1, ⟨(2 : Int) - 1, 1, 3⟩) :=
  ⟨(c7_push_pop ⟨2, 1, 3⟩).2.1 (by decide), (c7_push_pop ⟨2, 1, 3⟩).2.2.2 (by decide)⟩

/-- C8: for an instruction whose oparg tuple is `init ++ [lastArg]` with every
entry an unsigned byte, `__bytes__` emits one `(EXTENDED_ARG, aᵢ)` pair per
non-terminal arg followed by `(opcode, lastArg)`, and `__len__` equals
`2 + 2·n` (for `n` non-terminal args), which equals the byte length of the
serialized form. -/
theorem c8_serialize_len (extOp op lastArg : Nat) (init : List Nat)
    (hext : extOp < 256) (hop : op < 256)
    (hargs : ∀ a ∈ init ++ [lastArg], a < 256) :
    instrBytes extOp op (init ++ [lastArg]) =
      some (init.flatMap (fun a => [extOp, a]) ++ [op, lastArg]) ∧
    encoded_len (init ++ [lastArg]) = 2 + 2 * init.length ∧
    (init.flatMap (fun a => [extOp, a]) ++ [op, lastArg]).length =
      encoded_len (init ++ [lastArg]) := by
  have hlen : encoded_len (init ++ [lastArg]) = 2 + 2 * init.length := by
    simp [encoded_len, List.length_tail]
  refine ⟨?_, hlen, ?_⟩
  · unfold instrBytes
    rw [List.getLast?_concat, List.dropLast_concat]
    have hall : ((init.flatMap (fun a => [extOp, a]) ++ [op, lastArg]).all (· < 256)) = true := by
      rw [List.all_eq_true]
      intro x hx
      rcases List.mem_append.mp hx with hx | hx
      · rcases List.mem_flatMap.mp hx with ⟨a, ha, hxa⟩
        have hab : a < 256 := hargs a (List.mem_append.mpr (Or.inl ha))
        rcases List.mem_cons.mp hxa with h | h
        · simpa [h] using hext
        · have : x = a := by simpa using h
          simpa [this] using hab
      · rcases List.mem_cons.mp hx with h | h
        · simpa [h] using hop
        · have hx' : x = lastArg := by simpa using h
          have hl : lastArg < 256 := hargs lastArg (List.mem_append.mpr (Or.inr (by simp)))
          simpa [hx'] using hl
    simp [hall]
  · rw [hlen, List.length_append, flatMap_pair_length]
    simp only [List.length_cons, List.length_nil]
    omega

/-- Witness for C8: opargs `(1, 2, 3)` with `EXTENDED_ARG = 144`, opcode 100. -/
theorem c8_serialize_len_witness :
    instrBytes 144 100 ([1, 2] ++ [3]) =
      some ([1, 2].flatMap (fun a => [144, a]) ++ [100, 3]) ∧
    encoded_len ([1, 2] ++ [3]) = 2 + 2 * [1, 2].length ∧
    ([1, 2].flatMap (fun a => [144, a]) ++ [100, 3]).length =
      encoded_len ([1, 2] ++ [3]) :=
  c8_serialize_len 144 100 3 [1, 2] (by decide) (by decide) (by decide)

/-- C10: `__bytes__` is partial: when any oparg lies outside `[0, 256)` (here:
is at least 256, opargs being naturals), serialization fails (`bytes()` raises
`ValueError`) instead of producing output — no implicit widening into extra
`EXTENDED_ARG` prefixes takes place. -/
theorem c10_oversized_oparg (extOp op a : Nat) (opargs : List Nat)
    (hmem : a ∈ opargs) (hbig : 256 ≤ a) :
    instrBytes extOp op opargs = none := by
  unfold instrBytes
  match h : opargs.getLast? with
  | none => rfl
  | some lastArg =>
    simp only
    have hsplit : opargs.dropLast ++ [lastArg] = opargs := by
      simpa using (List.dropLast_append_getLast? lastArg h)
    have hmem' : a ∈ opargs.dropLast ++ [lastArg] := by rw [hsplit]; exact hmem
    have hin : a ∈ opargs.dropLast.flatMap (fun x => [extOp, x]) ++ [op, lastArg] := by
      rcases List.mem_append.mp hmem' with hx | hx
      · exact List.mem_append.mpr (Or.inl (List.mem_flatMap.mpr ⟨a, hx, by simp⟩))
      · have : a = lastArg := by simpa using hx
        exact List.mem_append.mpr (Or.inr (by simp [this]))
    have : ¬ ((opargs.dropLast.flatMap (fun x => [extOp, x]) ++ [op, lastArg]).all (· < 256)) = true := by
      rw [List.all_eq_true]
      intro hall
      have h256 := hall a hin
      simp at h256
      omega
    simp [this]

/-- Witness for C10: oparg tuple `(300, 1)` contains 300 ≥ 256, so
serialization fails. -/
theorem c10_oversized_oparg_witness : instrBytes 144 100 [300, 1] = none :=
  c10_oversized_oparg 144 100 300 [300, 1] (by decide) (by decide)

/-- C9: `get_lnotab` appends an `(address_delta, line_delta)` pair exactly
when an instruction's line number strictly exceeds the last emitted line
number, appends nothing for equal or earlier line numbers, and starts the
last line number at `co_firstlineno`: it equals the delta encoding of the
strictly-rising-line filter of the absolute (address, line) stream, seeded
with address 0 and line `co_firstlineno`. -/
theorem c9_get_lnotab (firstlineno : Int) (instrs : List LnInstr) :
    get_lnotab firstlineno instrs =
      deltaPairs 0 firstlineno (emittedEntries firstlineno (withAddresses 0 instrs)) :=
  lnotabAux_eq_deltaPairs instrs firstlineno 0 0

end Rattlesnake
